import Mathlib

set_option maxRecDepth 8000

/-!
Verification of the Pac-Mon trace viewer core: the cursor-paginated capped
fetch session (`ApiContext.jsx`, `getTraces`/`fetchTraces`) and the facet
extraction and filter pipeline (`App.jsx`, `findSeenCallsignsAndNetRom` /
`filterTraces`), shallowly embedded as executable Lean definitions.
-/

namespace PacMon

/-! ## Fetch session model (ApiContext.jsx)

The JS `fetchTraces` closure paginates with a cursor.  We model one
invocation of `getTraces`: the server is a list of responses, consumed in
request order; `none` models a transport/decode failure of that request
(the promise rejects and no handler runs).  Machine state mirrors the
refs and React state of `ApiProvider`: `counter`, `tracePages`,
`localRecordCount` (refs) and `traces`, `recordCount`, `downloadedCount`
(published React state). -/

/-- One API response page: `data`, `page.totalCount`, and whether a
`page.next` cursor is present. -/
structure Page (α : Type) where
  data : List α
  totalCount : Nat
  next : Bool
deriving DecidableEq, Repr

/-- The mutable cells of `ApiProvider` visible to one fetch session. -/
structure FetchState (α : Type) where
  counter : Nat
  tracePages : List α
  localRecordCount : Nat
  traces : List α
  recordCount : Nat
  downloadedCount : Nat
deriving DecidableEq, Repr

/-- Terminal/observable status of a run of `fetchTraces`:
`completed` (a page without a next cursor was merged and published),
`capped` (the projected size check stopped the session),
`failed` (a request errored: its handler never ran),
`awaiting` (a request was issued but its response is still outstanding). -/
inductive Outcome where
  | completed
  | capped
  | failed
  | awaiting
deriving DecidableEq, Repr

/-- Result of a run: number of page requests issued, the log of published
checkpoints (state as it stood at each publication, buffer included,
captured before any end-of-handler buffer clearing), the final state, and
the outcome. -/
structure RunResult (α : Type) where
  requests : Nat
  checkpoints : List (FetchState α)
  final : FetchState α
  outcome : Outcome
deriving DecidableEq, Repr

variable {α : Type}

/-- The `else` branch of the JS `fetchTraces` (subsequent fetches, with a
cursor): increment the page counter, stop if the projected size
`counter * pageSize` exceeds the maximum permitted download size
(publishing the buffer as it stood, without merging the page), otherwise
append the page and either continue with the next cursor (publishing
`downloadedCount = counter * pageSize`) or finish (publishing
`downloadedCount = localRecordCount` and the full buffer, then clearing
the buffer). -/
def fetchLoop (ps ms : Nat) : List (Option (Page α)) → FetchState α → Nat →
    List (FetchState α) → RunResult α
  | [], st, reqs, log => ⟨reqs + 1, log, st, .awaiting⟩
  | none :: _, st, reqs, log => ⟨reqs + 1, log, st, .failed⟩
  | some p :: rest, st, reqs, log =>
    let c := st.counter + 1
    if c * ps > ms then
      let stPub := { st with counter := c, traces := st.tracePages }
      ⟨reqs + 1, log ++ [stPub], stPub, .capped⟩
    else
      let buf := st.tracePages ++ p.data
      if p.next then
        let stPub := { st with counter := c, tracePages := buf, downloadedCount := c * ps }
        fetchLoop ps ms rest stPub (reqs + 1) (log ++ [stPub])
      else
        let stPub := { st with
          counter := c
          tracePages := buf
          downloadedCount := st.localRecordCount
          traces := buf }
        ⟨reqs + 1, log ++ [stPub], { stPub with tracePages := [] }, .completed⟩

/-- The JS `fetchTraces(cursor = null)` entry: first fetch.  On the first
response it resets the counter, overwrites the buffer, records
`totalCount`, publishes `recordCount`, `traces` and `downloadedCount`
(`counter * pageSize` when `totalCount > pageSize`, else `totalCount`),
and loops on `page.next` if present.  `st0` is the ambient state published
before this session started. -/
def fetchTraces (ps ms : Nat) (st0 : FetchState α) : List (Option (Page α)) → RunResult α
  | [] => ⟨1, [], st0, .awaiting⟩
  | none :: _ => ⟨1, [], st0, .failed⟩
  | some p :: rest =>
    let st1 : FetchState α :=
      { counter := 1
        tracePages := p.data
        localRecordCount := p.totalCount
        traces := p.data
        recordCount := p.totalCount
        downloadedCount := if p.totalCount > ps then 1 * ps else p.totalCount }
    if p.next then fetchLoop ps ms rest st1 1 [st1]
    else ⟨1, [st1], st1, .completed⟩

/-- `env.js`: records per page requested from the API. -/
def API_PAGE_SIZE : Nat := 500

/-- `env.js`: maximum permitted total download size. -/
def MAX_PERMITTED_DOWNLOAD_SIZE : Nat := 5000

/-! ## Trace records and facets (App.jsx)

A trace `t` is accessed in the filter code only through `t.report.*`; we
model the report payload directly.  Per the spec data model, `reportFrom`,
`port`, `srce`, `dest`, `l2Type` are always present; `ptcl`, `type`,
`l3type` are optional strings and `toCct` an optional numeric NET/ROM
circuit id (the sort comparator `a.toCct - b.toCct` is numeric).  `l3src`
and `l3dst` are modelled as strings. -/

structure Report where
  reportFrom : String
  port : String
  srce : String
  dest : String
  l2Type : String
  ptcl : Option String
  toCct : Option Nat
  l3src : String
  l3dst : String
  type : Option String
  l3type : Option String
deriving DecidableEq, Repr

/-- The `circuitObject` built in `findSeenCallsignsAndNetRom`: keys
inserted in the order `toCct`, `l3src`, `l3dst`. -/
structure Circuit where
  toCct : Nat
  l3src : String
  l3dst : String
deriving DecidableEq, Repr

/-- The `portObject` built in `findSeenCallsignsAndNetRom`: keys inserted
in the order `port`, `reportFrom`. -/
structure Port where
  port : String
  reportFrom : String
deriving DecidableEq, Repr

/-- JS truthiness of `t.report.toCct` for a numeric circuit id: absent and
`0` are falsy. -/
def toCctTruthy : Option Nat → Bool
  | some n => decide (n ≠ 0)
  | none => false

/-! ### JSON.stringify model

Dedup in `findSeenCallsignsAndNetRom` compares candidates by
`JSON.stringify(c) === JSON.stringify(x)`.  We model `JSON.stringify` on
the three fixed object shapes the code builds, with keys in insertion
order and JSON string escaping of `"` and `\` (the further escapes
performed by real `JSON.stringify`, e.g. of control characters, only add
escape sequences and do not affect injectivity). -/

/-- JSON string-body escaping of `"` and `\`. -/
def jsonEscape : List Char → List Char
  | [] => []
  | c :: cs => if c = '"' ∨ c = '\\' then '\\' :: c :: jsonEscape cs else c :: jsonEscape cs

/-- A JSON string literal: quote, escaped body, quote. -/
def jsonQuote (s : String) : List Char := '"' :: (jsonEscape s.data ++ ['"'])

/-- Decimal digit character. -/
def digitChar : Nat → Char
  | 0 => '0'
  | 1 => '1'
  | 2 => '2'
  | 3 => '3'
  | 4 => '4'
  | 5 => '5'
  | 6 => '6'
  | 7 => '7'
  | 8 => '8'
  | 9 => '9'
  | _ => '*'

/-- Little-endian decimal digits of a positive natural. -/
def natCharsRev : Nat → List Char
  | 0 => []
  | n + 1 => digitChar ((n + 1) % 10) :: natCharsRev ((n + 1) / 10)
decreasing_by exact Nat.div_lt_self (Nat.succ_pos n) (by omega)

/-- Decimal rendering of a natural number, as `JSON.stringify` renders a
non-negative integer. -/
def natChars (n : Nat) : List Char := if n = 0 then ['0'] else (natCharsRev n).reverse

/-- `JSON.stringify` of a `circuitObject`. -/
def jsonCircuitChars (c : Circuit) : List Char :=
  ("\x7b\"toCct\":").data ++ natChars c.toCct ++ (",\"l3src\":").data ++ jsonQuote c.l3src
    ++ (",\"l3dst\":").data ++ jsonQuote c.l3dst ++ ("\x7d").data

/-- `JSON.stringify` of a `portObject`. -/
def jsonPortChars (p : Port) : List Char :=
  ("\x7b\"port\":").data ++ jsonQuote p.port ++ (",\"reportFrom\":").data ++ jsonQuote p.reportFrom
    ++ ("\x7d").data

/-- `JSON.stringify` of a two-element `callsignArray`. -/
def jsonPairChars (a : String × String) : List Char :=
  ("[").data ++ jsonQuote a.1 ++ (",").data ++ jsonQuote a.2 ++ ("]").data

/-! ### Facet extraction (`findSeenCallsignsAndNetRom`)

The single pass over `traces` maintains three independent accumulators;
we model each as its own fold.  The NET/ROM accumulator is re-sorted in
place (`tmpSeenCcts.sort((a,b) => a.toCct - b.toCct)`, a stable numeric
sort) every time a NET/ROM record is processed. -/

/-- Guard `t.report.ptcl == 'NET/ROM' && t.report.toCct`. -/
def isNetRomCct (t : Report) : Bool := (t.ptcl == some "NET/ROM") && toCctTruthy t.toCct

/-- The circuit facet built from a qualifying record. -/
def circuitOf (t : Report) : Circuit := ⟨t.toCct.getD 0, t.l3src, t.l3dst⟩

/-- Processing one record into the `tmpSeenCcts` accumulator. -/
def circuitsStep (acc : List Circuit) (t : Report) : List Circuit :=
  if isNetRomCct t then
    let c := circuitOf t
    let acc2 :=
      if (acc.filter fun x => decide (jsonCircuitChars x = jsonCircuitChars c)).length = 0 then
        acc ++ [c]
      else acc
    acc2.mergeSort fun a b => decide (a.toCct ≤ b.toCct)
  else acc

/-- `extractCircuits`: the final value of `tmpSeenCcts`. -/
def extractCircuits (ts : List Report) : List Circuit := ts.foldl circuitsStep []

/-- The port facet built from a record. -/
def portOf (t : Report) : Port := ⟨t.port, t.reportFrom⟩

/-- Processing one record into the `tmpSeenPorts` accumulator. -/
def portsStep (acc : List Port) (t : Report) : List Port :=
  let p := portOf t
  if (acc.filter fun x => decide (jsonPortChars x = jsonPortChars p)).length = 0 then
    acc ++ [p]
  else acc

/-- `extractPorts`: the final value of `tmpSeenPorts`. -/
def extractPorts (ts : List Report) : List Port := ts.foldl portsStep []

/-- Code-unit lexicographic comparison, the default JS `Array.sort`
string comparator (UTF-16 code units; code points coincide for the
Basic Multilingual Plane callsign alphabet). -/
def charsLe : List Char → List Char → Bool
  | [], _ => true
  | _ :: _, [] => false
  | a :: as, b :: bs =>
    if a.toNat < b.toNat then true
    else if b.toNat < a.toNat then false
    else charsLe as bs

/-- `a <= b` under the default JS string sort order. -/
def strLe (a b : String) : Bool := charsLe a.data b.data

/-- The `callsignArray` of the current `App.jsx` (part of the single-pass
scan): `[srce, dest].sort()`, i.e. the pair canonicalized ascending by the
default JS string comparison. -/
def sortedPairOf (t : Report) : String × String :=
  if strLe t.srce t.dest then (t.srce, t.dest) else (t.dest, t.srce)

/-- Processing one record into `tmpSeenL2Callsigns` (current `App.jsx`,
with `callsignArray.sort()`). -/
def pairsStepSorted (acc : List (String × String)) (t : Report) : List (String × String) :=
  let a := sortedPairOf t
  if (acc.filter fun x => decide (jsonPairChars x = jsonPairChars a)).length = 0 then
    acc ++ [a]
  else acc

/-- `extractCallsignPairs` of the current `App.jsx` (canonicalizing). -/
def extractCallsignPairsSorted (ts : List Report) : List (String × String) :=
  ts.foldl pairsStepSorted []

/-- Processing one record into `tmpSeenL2Callsigns` (earlier `App.jsx`
variant, without the `sort()` call: the pair is kept as encountered). -/
def pairsStepAsSeen (acc : List (String × String)) (t : Report) : List (String × String) :=
  let a := (t.srce, t.dest)
  if (acc.filter fun x => decide (jsonPairChars x = jsonPairChars a)).length = 0 then
    acc ++ [a]
  else acc

/-- `extractCallsignPairs` of the earlier `App.jsx` variant
(no canonicalization). -/
def extractCallsignPairsAsSeen (ts : List Report) : List (String × String) :=
  ts.foldl pairsStepAsSeen []

/-! ### Filter pipeline (`filterTraces`, current `App.jsx`) -/

/-- The user-controlled filter criteria read by `filterTraces`. -/
structure FilterCriteria where
  selectedNetRomCircuits : List Circuit
  selectedPorts : List Port
  selectedL2Callsigns : List (String × String)
  suppressNodes : Bool
  suppressUI : Bool
  suppressNetRom : Bool
  suppressInp3 : Bool
  showOnlyFRMR : Bool
  showOnlyRoutingInfo : Bool
deriving DecidableEq, Repr

/-- `t.report.toCct && t.report.toCct == c.toCct`: matching a record
against one selected NET/ROM circuit. -/
def circuitMatch (t : Report) (c : Circuit) : Bool :=
  toCctTruthy t.toCct && (t.toCct == some c.toCct)

/-- `t.report.reportFrom == p.reportFrom && t.report.port == p.port`. -/
def portMatch (t : Report) (p : Port) : Bool :=
  (t.reportFrom == p.reportFrom) && (t.port == p.port)

/-- `(srce == c[0] && dest == c[1]) || (srce == c[1] && dest == c[0])`. -/
def pairMatch (t : Report) (c : String × String) : Bool :=
  ((t.srce == c.1) && (t.dest == c.2)) || ((t.srce == c.2) && (t.dest == c.1))

/-- The NET/ROM circuit selection filter of `filterTraces` (applied only
when the selection is non-empty; a record survives when the selection
filtered by the match has positive length). -/
def filterByCircuits (sel : List Circuit) (ts : List Report) : List Report :=
  if sel.length > 0 then
    ts.filter fun t => decide ((sel.filter fun c => circuitMatch t c).length > 0)
  else ts

/-- The port selection filter of `filterTraces`. -/
def filterByPorts (sel : List Port) (ts : List Report) : List Report :=
  if sel.length > 0 then
    ts.filter fun t => decide ((sel.filter fun p => portMatch t p).length > 0)
  else ts

/-- The L2 callsign-pair selection filter of `filterTraces`. -/
def filterByCallsigns (sel : List (String × String)) (ts : List Report) : List Report :=
  if sel.length > 0 then
    ts.filter fun t => decide ((sel.filter fun c => pairMatch t c).length > 0)
  else ts

/-- STEP 2 of `filterTraces`: the facet-intersection stage, the three
selection filters applied in sequence. -/
def facetStage (cr : FilterCriteria) (ts : List Report) : List Report :=
  filterByCallsigns cr.selectedL2Callsigns
    (filterByPorts cr.selectedPorts
      (filterByCircuits cr.selectedNetRomCircuits ts))

/-- STEP 3 of `filterTraces`: the exclusive-view and suppression checks,
in the source's early-return order. -/
def suppressPred (cr : FilterCriteria) (t : Report) : Bool :=
  if cr.showOnlyRoutingInfo && !(t.l3type == some "Routing info") then false
  else if cr.showOnlyFRMR && !(t.l2Type == "FRMR") then false
  else if cr.suppressNetRom && (t.ptcl == some "NET/ROM") then false
  else if cr.suppressInp3 && (t.type == some "INP3") then false
  else if cr.suppressNodes && (t.type == some "NODES") then false
  else if cr.suppressUI && (t.l2Type == "UI") then false
  else true

/-- `filterTraces` as a function of the published traces and the criteria
(STEP 1, facet extraction, feeds the selection widgets and does not touch
the filtered output): facet intersection, then the suppression filter. -/
def filterTraces (cr : FilterCriteria) (ts : List Report) : List Report :=
  (facetStage cr ts).filter fun t => suppressPred cr t

/-! ### Specification-side definitions (for comparison with the code) -/

/-- The facet-intersection stage as one record predicate, with the code's
matching rules (truthy `toCct` required for a circuit match): empty
selections impose no constraint, a non-empty selection requires a match
with at least one selected value, and the dimensions combine with AND. -/
def facetMatch (cr : FilterCriteria) (t : Report) : Bool :=
  (cr.selectedNetRomCircuits.isEmpty || cr.selectedNetRomCircuits.any fun c => circuitMatch t c) &&
  ((cr.selectedPorts.isEmpty || cr.selectedPorts.any fun p => portMatch t p) &&
   (cr.selectedL2Callsigns.isEmpty || cr.selectedL2Callsigns.any fun c => pairMatch t c))

/-- The claim's facet-intersection predicate, following the spec's words:
a circuit matches on equal `toCct` alone (no truthiness requirement on
the record's `toCct`). -/
def claimFacetMatch (cr : FilterCriteria) (t : Report) : Bool :=
  (cr.selectedNetRomCircuits.isEmpty
      || cr.selectedNetRomCircuits.any fun c => t.toCct == some c.toCct) &&
  ((cr.selectedPorts.isEmpty || cr.selectedPorts.any fun p => portMatch t p) &&
   (cr.selectedL2Callsigns.isEmpty || cr.selectedL2Callsigns.any fun c => pairMatch t c))

/-- Circuit accumulator step following the spec's words: deduplicate by
structural equality (instead of comparing JSON stringifications). -/
def circuitsStepStructural (acc : List Circuit) (t : Report) : List Circuit :=
  if isNetRomCct t then
    let c := circuitOf t
    let acc2 := if c ∉ acc then acc ++ [c] else acc
    acc2.mergeSort fun a b => decide (a.toCct ≤ b.toCct)
  else acc

/-- `extractCircuits` with structural-equality deduplication. -/
def extractCircuitsStructural (ts : List Report) : List Circuit :=
  ts.foldl circuitsStepStructural []

/-- Port accumulator step following the spec's words: deduplicate by
structural equality. -/
def portsStepStructural (acc : List Port) (t : Report) : List Port :=
  let p := portOf t
  if p ∉ acc then acc ++ [p] else acc

/-- `extractPorts` with structural-equality deduplication. -/
def extractPortsStructural (ts : List Report) : List Port :=
  ts.foldl portsStepStructural []

/-- First-seen-order structural deduplication of a pair sequence — the
spec's description of the callsign-pair facet collection. -/
def dedupFirst (ps : List (String × String)) : List (String × String) :=
  ps.foldl (fun acc p => if p ∈ acc then acc else acc ++ [p]) []

/-! ### Concrete fixtures for witnesses and counterexamples -/

/-- Ambient state before a session, for concrete runs. -/
def initState : FetchState Nat := ⟨0, [], 0, [], 0, 0⟩

/-- A full 500-record page of a 20000-record result set, with a next cursor. -/
def fullPage : Page Nat := ⟨List.replicate 500 0, 20000, true⟩

/-- Eleven successful full-page responses of the cap-enforcement scenario. -/
def capServer : List (Option (Page Nat)) := List.replicate 11 (some fullPage)

/-- Three successful pages of the normal-pagination scenario. -/
def normalServer : List (Option (Page Nat)) :=
  [some ⟨List.replicate 500 0, 1200, true⟩, some ⟨List.replicate 500 0, 1200, true⟩,
   some ⟨List.replicate 200 0, 1200, false⟩]

/-- Two pages exercising the checkpoint invariant concretely. -/
def invServer : List (Option (Page Nat)) :=
  [some ⟨[1, 2], 3, true⟩, some ⟨[3], 3, false⟩]

/-- A NET/ROM record whose `toCct` is present but `0` (falsy in JS). -/
def cctZeroReport : Report :=
  ⟨"N1", "1", "A", "B", "I", some "NET/ROM", some 0, "S", "D", none, none⟩

/-- Criteria selecting exactly the circuit with `toCct = 0`. -/
def cctZeroCriteria : FilterCriteria :=
  ⟨[⟨0, "S", "D"⟩], [], [], false, false, false, false, false, false⟩

/-- A record whose source callsign sorts after its destination. -/
def baReport : Report := ⟨"N1", "1", "B", "A", "I", none, none, "", "", none, none⟩

/-- The same link observed in the opposite direction. -/
def abReport : Report := ⟨"N1", "1", "A", "B", "I", none, none, "", "", none, none⟩

/-! ## Helper lemmas: injectivity of the stringified facet encodings -/

theorem jsonEscape_append_inj (l₁ : List Char) : ∀ (l₂ r₁ r₂ : List Char),
    jsonEscape l₁ ++ '"' :: r₁ = jsonEscape l₂ ++ '"' :: r₂ → l₁ = l₂ ∧ r₁ = r₂ := by
  induction l₁ with
  | nil =>
    intro l₂ r₁ r₂ h
    cases l₂ with
    | nil => simpa [jsonEscape] using h
    | cons b bs =>
      simp only [jsonEscape, List.nil_append] at h
      by_cases hb : b = '"' ∨ b = '\\'
      · rw [if_pos hb] at h
        simp only [List.cons_append] at h
        injection h with h1 _
        exact absurd h1 (by decide)
      · rw [if_neg hb] at h
        simp only [List.cons_append] at h
        injection h with h1 _
        exact absurd (Or.inl h1.symm) hb
  | cons a as ih =>
    intro l₂ r₁ r₂ h
    cases l₂ with
    | nil =>
      simp only [jsonEscape, List.nil_append] at h
      by_cases ha : a = '"' ∨ a = '\\'
      · rw [if_pos ha] at h
        simp only [List.cons_append] at h
        injection h with h1 _
        exact absurd h1 (by decide)
      · rw [if_neg ha] at h
        simp only [List.cons_append] at h
        injection h with h1 _
        exact absurd (Or.inl h1) ha
    | cons b bs =>
      simp only [jsonEscape] at h
      by_cases ha : a = '"' ∨ a = '\\' <;> by_cases hb : b = '"' ∨ b = '\\'
      · rw [if_pos ha, if_pos hb] at h
        simp only [List.cons_append] at h
        injection h with _ h
        injection h with hab h
        obtain ⟨hl, hr⟩ := ih bs r₁ r₂ h
        exact ⟨by rw [hab, hl], hr⟩
      · rw [if_pos ha, if_neg hb] at h
        simp only [List.cons_append] at h
        injection h with h1 _
        exact absurd (Or.inr h1.symm) hb
      · rw [if_neg ha, if_pos hb] at h
        simp only [List.cons_append] at h
        injection h with h1 _
        exact absurd (Or.inr h1) ha
      · rw [if_neg ha, if_neg hb] at h
        simp only [List.cons_append] at h
        injection h with hab h
        obtain ⟨hl, hr⟩ := ih bs r₁ r₂ h
        exact ⟨by rw [hab, hl], hr⟩

theorem jsonQuote_append_inj {s₁ s₂ : String} {r₁ r₂ : List Char}
    (h : jsonQuote s₁ ++ r₁ = jsonQuote s₂ ++ r₂) : s₁ = s₂ ∧ r₁ = r₂ := by
  simp only [jsonQuote, List.cons_append, List.append_assoc, List.singleton_append] at h
  injection h with _ h
  obtain ⟨hd, hr⟩ := jsonEscape_append_inj _ _ _ _ h
  exact ⟨congrArg String.mk hd, hr⟩

theorem sep_append_inj {p : Char → Bool} {sep : Char} (hsep : p sep = false) :
    ∀ (xs ys r₁ r₂ : List Char), (∀ c ∈ xs, p c = true) → (∀ c ∈ ys, p c = true) →
    xs ++ sep :: r₁ = ys ++ sep :: r₂ → xs = ys ∧ r₁ = r₂ := by
  intro xs
  induction xs with
  | nil =>
    intro ys r₁ r₂ _ hys h
    cases ys with
    | nil => simpa using h
    | cons b bs =>
      simp only [List.nil_append, List.cons_append] at h
      injection h with h1 _
      have hb := hys b (by simp)
      rw [← h1, hsep] at hb
      cases hb
  | cons a as ih =>
    intro ys r₁ r₂ hxs hys h
    cases ys with
    | nil =>
      simp only [List.nil_append, List.cons_append] at h
      injection h with h1 _
      have ha := hxs a (by simp)
      rw [h1, hsep] at ha
      cases ha
    | cons b bs =>
      simp only [List.cons_append] at h
      injection h with h1 h2
      obtain ⟨hl, hr⟩ := ih bs r₁ r₂ (fun c hc => hxs c (by simp [hc]))
        (fun c hc => hys c (by simp [hc])) h2
      exact ⟨by rw [h1, hl], hr⟩

theorem digitChar_isDigit {d : Nat} (h : d < 10) : (digitChar d).isDigit = true := by
  interval_cases d <;> decide

theorem digitChar_inj {a b : Nat} (ha : a < 10) (hb : b < 10)
    (h : digitChar a = digitChar b) : a = b := by
  interval_cases a <;> interval_cases b <;> revert h <;> decide

theorem mem_natCharsRev_isDigit : ∀ n, ∀ c ∈ natCharsRev n, c.isDigit = true := by
  intro n
  induction n using Nat.strong_induction_on with
  | _ n ih =>
    match n with
    | 0 => simp [natCharsRev]
    | m + 1 =>
      intro c hc
      rw [natCharsRev] at hc
      rcases List.mem_cons.mp hc with h | h
      · subst h
        exact digitChar_isDigit (Nat.mod_lt _ (by omega))
      · exact ih ((m + 1) / 10) (Nat.div_lt_self (by omega) (by omega)) c h

theorem mem_natChars_isDigit (n : Nat) : ∀ c ∈ natChars n, c.isDigit = true := by
  intro c hc
  rw [natChars] at hc
  split at hc
  · simp only [List.mem_singleton] at hc
    subst hc
    decide
  · exact mem_natCharsRev_isDigit n c (List.mem_reverse.mp hc)

theorem natCharsRev_eq_nil_iff {n : Nat} : natCharsRev n = [] ↔ n = 0 := by
  cases n <;> simp [natCharsRev]

theorem natCharsRev_inj : ∀ m, ∀ n, natCharsRev m = natCharsRev n → m = n := by
  intro m
  induction m using Nat.strong_induction_on with
  | _ m ih =>
    intro n h
    match m, n with
    | 0, 0 => rfl
    | 0, n + 1 => rw [natCharsRev, natCharsRev] at h; cases h
    | m + 1, 0 => rw [natCharsRev, natCharsRev] at h; cases h
    | m + 1, n + 1 =>
      rw [natCharsRev, natCharsRev] at h
      injection h with h1 h2
      have hq := ih ((m + 1) / 10) (Nat.div_lt_self (by omega) (by omega)) ((n + 1) / 10) h2
      have hr := digitChar_inj (Nat.mod_lt _ (by omega)) (Nat.mod_lt _ (by omega)) h1
      have hm := Nat.div_add_mod (m + 1) 10
      have hn := Nat.div_add_mod (n + 1) 10
      omega

theorem natChars_inj {m n : Nat} (h : natChars m = natChars n) : m = n := by
  rw [natChars, natChars] at h
  split at h <;> split at h
  · omega
  · exfalso
    have h2 : natCharsRev n = ['0'] := by
      rw [← List.reverse_reverse (natCharsRev n), ← h, List.reverse_singleton]
    match n, h2 with
    | k + 1, h2 =>
      rw [natCharsRev] at h2
      injection h2 with h3 h4
      have h5 : (k + 1) / 10 = 0 := natCharsRev_eq_nil_iff.mp h4
      have h6 : (k + 1) % 10 = 0 :=
        digitChar_inj (Nat.mod_lt _ (by omega)) (by omega) (by simpa [digitChar] using h3)
      omega
  · exfalso
    have h2 : natCharsRev m = ['0'] := by
      rw [← List.reverse_reverse (natCharsRev m), h, List.reverse_singleton]
    match m, h2 with
    | k + 1, h2 =>
      rw [natCharsRev] at h2
      injection h2 with h3 h4
      have h5 : (k + 1) / 10 = 0 := natCharsRev_eq_nil_iff.mp h4
      have h6 : (k + 1) % 10 = 0 :=
        digitChar_inj (Nat.mod_lt _ (by omega)) (by omega) (by simpa [digitChar] using h3)
      omega
  · exact natCharsRev_inj m n (List.reverse_injective h)

theorem natChars_append_inj {m n : Nat} {r₁ r₂ : List Char}
    (h : natChars m ++ ',' :: r₁ = natChars n ++ ',' :: r₂) : m = n ∧ r₁ = r₂ := by
  obtain ⟨hl, hr⟩ := sep_append_inj (p := Char.isDigit) (by decide) _ _ _ _
    (mem_natChars_isDigit m) (mem_natChars_isDigit n) h
  exact ⟨natChars_inj hl, hr⟩

theorem jsonCircuitChars_inj {a b : Circuit}
    (h : jsonCircuitChars a = jsonCircuitChars b) : a = b := by
  obtain ⟨t₁, s₁, d₁⟩ := a
  obtain ⟨t₂, s₂, d₂⟩ := b
  simp only [jsonCircuitChars, List.append_assoc, List.cons_append, List.cons.injEq,
    eq_self_iff_true, true_and] at h
  obtain ⟨hc, h2⟩ := natChars_append_inj h
  simp only [List.cons.injEq, eq_self_iff_true, true_and] at h2
  obtain ⟨hs, h4⟩ := jsonQuote_append_inj h2
  simp only [List.cons.injEq, eq_self_iff_true, true_and] at h4
  obtain ⟨hd, _⟩ := jsonQuote_append_inj h4
  simp only [Circuit.mk.injEq]
  exact ⟨hc, hs, hd⟩

theorem jsonPortChars_inj {a b : Port}
    (h : jsonPortChars a = jsonPortChars b) : a = b := by
  obtain ⟨p₁, r₁⟩ := a
  obtain ⟨p₂, r₂⟩ := b
  simp only [jsonPortChars, List.append_assoc, List.cons_append, List.cons.injEq,
    eq_self_iff_true, true_and] at h
  obtain ⟨hp, h2⟩ := jsonQuote_append_inj h
  simp only [List.cons.injEq, eq_self_iff_true, true_and] at h2
  obtain ⟨hr, _⟩ := jsonQuote_append_inj h2
  simp only [Port.mk.injEq]
  exact ⟨hp, hr⟩

theorem jsonPairChars_inj {a b : String × String}
    (h : jsonPairChars a = jsonPairChars b) : a = b := by
  obtain ⟨x₁, y₁⟩ := a
  obtain ⟨x₂, y₂⟩ := b
  simp only [jsonPairChars, List.append_assoc, List.cons_append, List.cons.injEq,
    eq_self_iff_true, true_and] at h
  obtain ⟨hx, h2⟩ := jsonQuote_append_inj h
  simp only [List.cons.injEq, eq_self_iff_true, true_and] at h2
  obtain ⟨hy, _⟩ := jsonQuote_append_inj h2
  simp only [Prod.mk.injEq]
  exact ⟨hx, hy⟩

/-- The stringified dedup guard `filter(x => stringify x === stringify c).length == 0`
coincides with non-membership whenever the encoding is injective. -/
theorem filter_stringify_len_zero_iff {β : Type} [DecidableEq β] {f : β → List Char}
    (hf : ∀ x y : β, f x = f y → x = y) (acc : List β) (c : β) :
    ((acc.filter fun x => decide (f x = f c)).length = 0) ↔ c ∉ acc := by
  rw [List.length_eq_zero, List.filter_eq_nil_iff]
  constructor
  · intro h hmem
    have := h c hmem
    simp at this
  · intro h x hx
    simp only [decide_eq_true_eq]
    intro heq
    exact h (hf x c heq ▸ hx)

/-! ## Helper lemmas: the pagination loop -/

/-- While every consumed page is full and carries a next cursor and the
projected size stays within the cap, the loop merges each page, and the
first page pushing the projection over the cap terminates the session
CAPPED without merging that page: its data never reaches the buffer, the
published traces equal the buffer, and `downloadedCount` stays at the last
merged projection. -/
theorem fetchLoop_caps (ps ms : Nat) :
    ∀ (chunk : List (Page α)) (st : FetchState α) (reqs : Nat) (log : List (FetchState α))
      (p0 : Page α) (rest : List (Option (Page α))),
    (∀ p ∈ chunk, p.data.length = ps ∧ p.next = true) →
    (st.counter + chunk.length) * ps ≤ ms →
    ms < (st.counter + chunk.length + 1) * ps →
    st.tracePages.length = st.counter * ps →
    st.downloadedCount = st.counter * ps →
    (fetchLoop ps ms (chunk.map some ++ some p0 :: rest) st reqs log).outcome = .capped ∧
    (fetchLoop ps ms (chunk.map some ++ some p0 :: rest) st reqs log).requests
      = reqs + chunk.length + 1 ∧
    (fetchLoop ps ms (chunk.map some ++ some p0 :: rest) st reqs log).final.downloadedCount
      = (st.counter + chunk.length) * ps ∧
    (fetchLoop ps ms (chunk.map some ++ some p0 :: rest) st reqs log).final.tracePages
      = st.tracePages ++ (chunk.map fun p => p.data).flatten ∧
    (fetchLoop ps ms (chunk.map some ++ some p0 :: rest) st reqs log).final.traces
      = st.tracePages ++ (chunk.map fun p => p.data).flatten ∧
    (fetchLoop ps ms (chunk.map some ++ some p0 :: rest) st reqs log).final.recordCount
      = st.recordCount := by
  intro chunk
  induction chunk with
  | nil =>
    intro st reqs log p0 rest _ hle hlt hbuf hdlc
    have hcap : (st.counter + 1) * ps > ms := by
      simpa using hlt
    simp only [List.map_nil, List.nil_append, fetchLoop, if_pos hcap]
    simp [hbuf, hdlc]
  | cons p chunk ih =>
    intro st reqs log p0 rest hchunk hle hlt hbuf hdlc
    have hp := hchunk p (by simp)
    simp only [List.length_cons] at hle hlt
    have hnocap : ¬ (st.counter + 1) * ps > ms := by
      have h1 : (st.counter + 1) * ps ≤ (st.counter + (chunk.length + 1)) * ps :=
        Nat.mul_le_mul_right _ (by omega)
      omega
    have hstep : fetchLoop ps ms ((p :: chunk).map some ++ some p0 :: rest) st reqs log =
        fetchLoop ps ms (chunk.map some ++ some p0 :: rest)
          { st with
            counter := st.counter + 1
            tracePages := st.tracePages ++ p.data
            downloadedCount := (st.counter + 1) * ps }
          (reqs + 1)
          (log ++ [{ st with
            counter := st.counter + 1
            tracePages := st.tracePages ++ p.data
            downloadedCount := (st.counter + 1) * ps }]) := by
      simp only [List.map_cons, List.cons_append]
      conv_lhs => rw [fetchLoop]
      rw [if_neg hnocap, hp.2]
      simp
    rw [hstep]
    obtain ⟨h1, h2, h3, h4, h5, h6⟩ := ih
      { st with
        counter := st.counter + 1
        tracePages := st.tracePages ++ p.data
        downloadedCount := (st.counter + 1) * ps }
      (reqs + 1)
      (log ++ [{ st with
        counter := st.counter + 1
        tracePages := st.tracePages ++ p.data
        downloadedCount := (st.counter + 1) * ps }])
      p0 rest
      (fun q hq => hchunk q (by simp [hq]))
      (by rw [show st.counter + 1 + chunk.length = st.counter + (chunk.length + 1) from by omega]
          exact hle)
      (by rw [show st.counter + 1 + chunk.length + 1 = st.counter + (chunk.length + 1) + 1 from by
            omega]
          exact hlt)
      (by simp [hbuf, hp.1, Nat.succ_mul])
      (by simp)
    refine ⟨h1, ?_, ?_, ?_, ?_, h6⟩
    · rw [h2]
      simp only [List.length_cons]
      omega
    · rw [h3]
      simp only [List.length_cons]
      congr 1
      omega
    · rw [h4]
      simp [List.append_assoc]
    · rw [h5]
      simp [List.append_assoc]

/-- A loop run on pages that all carry a next cursor followed by a final
page without one, staying within the cap, terminates COMPLETED: it issues
one request per page, publishes one checkpoint per page, publishes the
whole accumulation with `downloadedCount = localRecordCount`, and clears
the buffer after the terminal publication. -/
theorem fetchLoop_completes (ps ms : Nat) :
    ∀ (body : List (Page α)) (pfin : Page α) (st : FetchState α) (reqs : Nat)
      (log : List (FetchState α)),
    (∀ p ∈ body, p.next = true) →
    pfin.next = false →
    (st.counter + body.length + 1) * ps ≤ ms →
    (fetchLoop ps ms ((body ++ [pfin]).map some) st reqs log).outcome = .completed ∧
    (fetchLoop ps ms ((body ++ [pfin]).map some) st reqs log).requests
      = reqs + body.length + 1 ∧
    (fetchLoop ps ms ((body ++ [pfin]).map some) st reqs log).checkpoints.length
      = log.length + body.length + 1 ∧
    (fetchLoop ps ms ((body ++ [pfin]).map some) st reqs log).final.tracePages = [] ∧
    (fetchLoop ps ms ((body ++ [pfin]).map some) st reqs log).final.traces
      = st.tracePages ++ ((body.map fun p => p.data).flatten ++ pfin.data) ∧
    (fetchLoop ps ms ((body ++ [pfin]).map some) st reqs log).final.downloadedCount
      = st.localRecordCount ∧
    (fetchLoop ps ms ((body ++ [pfin]).map some) st reqs log).final.recordCount
      = st.recordCount := by
  intro body
  induction body with
  | nil =>
    intro pfin st reqs log _ hfin hle
    have hnocap : ¬ (st.counter + 1) * ps > ms := by
      simp only [List.length_nil, Nat.add_zero] at hle
      omega
    simp only [List.nil_append, List.map_cons, List.map_nil, fetchLoop, if_neg hnocap, hfin]
    simp
  | cons p body ih =>
    intro pfin st reqs log hbody hfin hle
    have hp := hbody p (by simp)
    simp only [List.length_cons] at hle
    have hnocap : ¬ (st.counter + 1) * ps > ms := by
      have h1 : (st.counter + 1) * ps ≤ (st.counter + (body.length + 1) + 1) * ps :=
        Nat.mul_le_mul_right _ (by omega)
      omega
    have hstep : fetchLoop ps ms (((p :: body) ++ [pfin]).map some) st reqs log =
        fetchLoop ps ms ((body ++ [pfin]).map some)
          { st with
            counter := st.counter + 1
            tracePages := st.tracePages ++ p.data
            downloadedCount := (st.counter + 1) * ps }
          (reqs + 1)
          (log ++ [{ st with
            counter := st.counter + 1
            tracePages := st.tracePages ++ p.data
            downloadedCount := (st.counter + 1) * ps }]) := by
      simp only [List.cons_append, List.map_cons]
      conv_lhs => rw [fetchLoop]
      rw [if_neg hnocap, hp]
      simp
    rw [hstep]
    obtain ⟨h1, h2, h3, h4, h5, h6, h7⟩ := ih pfin
      { st with
        counter := st.counter + 1
        tracePages := st.tracePages ++ p.data
        downloadedCount := (st.counter + 1) * ps }
      (reqs + 1)
      (log ++ [{ st with
        counter := st.counter + 1
        tracePages := st.tracePages ++ p.data
        downloadedCount := (st.counter + 1) * ps }])
      (fun q hq => hbody q (by simp [hq]))
      hfin
      (by rw [show st.counter + 1 + body.length + 1 = st.counter + (body.length + 1) + 1 from by
            omega]
          exact hle)
    refine ⟨h1, ?_, ?_, h4, ?_, h6, h7⟩
    · rw [h2]
      simp only [List.length_cons]
      omega
    · rw [h3]
      simp only [List.length_append, List.length_cons, List.length_nil]
      omega
    · rw [h5]
      simp [List.append_assoc]

/-- Published-checkpoint invariant of the loop: whenever every page with a
next cursor is exactly one pageful and `localRecordCount` accounts for the
remaining data, every checkpoint the loop adds to the log has an
accumulation buffer whose length equals the published `downloadedCount`. -/
theorem fetchLoop_inv (ps ms : Nat) :
    ∀ (body : List (Page α)) (pfin : Page α) (st : FetchState α) (reqs : Nat)
      (log : List (FetchState α)),
    (∀ p ∈ body, p.data.length = ps ∧ p.next = true) →
    pfin.next = false →
    st.tracePages.length = st.counter * ps →
    st.downloadedCount = st.counter * ps →
    st.localRecordCount
      = st.counter * ps + (body.map fun p => p.data.length).sum + pfin.data.length →
    ∀ cp ∈ (fetchLoop ps ms ((body ++ [pfin]).map some) st reqs log).checkpoints,
      cp ∈ log ∨ cp.tracePages.length = cp.downloadedCount := by
  intro body
  induction body with
  | nil =>
    intro pfin st reqs log _ hfin hbuf hdlc hlocal
    by_cases hcap : (st.counter + 1) * ps > ms
    · simp only [List.nil_append, List.map_cons, List.map_nil, fetchLoop, if_pos hcap]
      intro cp hcp
      simp only [List.mem_append, List.mem_singleton] at hcp
      rcases hcp with h | h
      · exact Or.inl h
      · subst h
        simp [hbuf, hdlc]
    · simp only [List.nil_append, List.map_cons, List.map_nil, fetchLoop, if_neg hcap, hfin]
      intro cp hcp
      simp only [Bool.false_eq_true, if_false, List.mem_append, List.mem_singleton] at hcp
      rcases hcp with h | h
      · exact Or.inl h
      · subst h
        right
        simp only [List.map_nil, List.sum_nil] at hlocal
        simp [hbuf, hlocal]
  | cons p body ih =>
    intro pfin st reqs log hbody hfin hbuf hdlc hlocal
    have hp := hbody p (by simp)
    by_cases hcap : (st.counter + 1) * ps > ms
    · simp only [List.cons_append, List.map_cons, fetchLoop, if_pos hcap]
      intro cp hcp
      simp only [List.mem_append, List.mem_singleton] at hcp
      rcases hcp with h | h
      · exact Or.inl h
      · subst h
        simp [hbuf, hdlc]
    · have hstep : fetchLoop ps ms (((p :: body) ++ [pfin]).map some) st reqs log =
          fetchLoop ps ms ((body ++ [pfin]).map some)
            { st with
              counter := st.counter + 1
              tracePages := st.tracePages ++ p.data
              downloadedCount := (st.counter + 1) * ps }
            (reqs + 1)
            (log ++ [{ st with
              counter := st.counter + 1
              tracePages := st.tracePages ++ p.data
              downloadedCount := (st.counter + 1) * ps }]) := by
        simp only [List.cons_append, List.map_cons]
        conv_lhs => rw [fetchLoop]
        rw [if_neg hcap, hp.2]
        simp
      rw [hstep]
      intro cp hcp
      have hnext := ih pfin
        { st with
          counter := st.counter + 1
          tracePages := st.tracePages ++ p.data
          downloadedCount := (st.counter + 1) * ps }
        (reqs + 1)
        (log ++ [{ st with
          counter := st.counter + 1
          tracePages := st.tracePages ++ p.data
          downloadedCount := (st.counter + 1) * ps }])
        (fun q hq => hbody q (by simp [hq]))
        hfin
        (by simp [hbuf, hp.1, Nat.succ_mul])
        (by simp)
        (by simp only [List.map_cons, List.sum_cons] at hlocal
            simp [hlocal, hp.1, Nat.succ_mul]
            omega)
        cp hcp
      rcases hnext with h | h
      · simp only [List.mem_append, List.mem_singleton] at h
        rcases h with h | h
        · exact Or.inl h
        · subst h
          right
          simp [hbuf, hp.1, Nat.succ_mul]
      · exact Or.inr h

/-- Terminal shape of any loop run: a COMPLETED run's final state is its
last published checkpoint with the buffer cleared; a CAPPED run's final
state IS its last published checkpoint (the buffer is left holding the
published traces); and the loop always issues at least one request. -/
theorem fetchLoop_terminal (ps ms : Nat) :
    ∀ (rs : List (Option (Page α))) (st : FetchState α) (reqs : Nat) (log : List (FetchState α)),
    ((fetchLoop ps ms rs st reqs log).outcome = .completed →
      ∃ cp, (fetchLoop ps ms rs st reqs log).checkpoints.getLast? = some cp ∧
        (fetchLoop ps ms rs st reqs log).final = { cp with tracePages := ([] : List α) } ∧
        cp.tracePages = cp.traces) ∧
    ((fetchLoop ps ms rs st reqs log).outcome = .capped →
      (fetchLoop ps ms rs st reqs log).checkpoints.getLast?
        = some (fetchLoop ps ms rs st reqs log).final ∧
      (fetchLoop ps ms rs st reqs log).final.tracePages
        = (fetchLoop ps ms rs st reqs log).final.traces) ∧
    reqs + 1 ≤ (fetchLoop ps ms rs st reqs log).requests := by
  intro rs
  induction rs with
  | nil =>
    intro st reqs log
    refine ⟨?_, ?_, ?_⟩ <;> simp [fetchLoop]
  | cons r rest ih =>
    intro st reqs log
    match r with
    | none =>
      refine ⟨?_, ?_, ?_⟩ <;> simp [fetchLoop]
    | some p =>
      by_cases hcap : (st.counter + 1) * ps > ms
      · simp only [fetchLoop, if_pos hcap]
        refine ⟨?_, ?_, ?_⟩
        · intro h
          cases h
        · intro _
          simp
        · simp
      · by_cases hnext : p.next = true
        · have hstep : fetchLoop ps ms (some p :: rest) st reqs log =
              fetchLoop ps ms rest
                { st with
                  counter := st.counter + 1
                  tracePages := st.tracePages ++ p.data
                  downloadedCount := (st.counter + 1) * ps }
                (reqs + 1)
                (log ++ [{ st with
                  counter := st.counter + 1
                  tracePages := st.tracePages ++ p.data
                  downloadedCount := (st.counter + 1) * ps }]) := by
            conv_lhs => rw [fetchLoop]
            rw [if_neg hcap, hnext]
            simp
          rw [hstep]
          obtain ⟨h1, h2, h3⟩ := ih
            { st with
              counter := st.counter + 1
              tracePages := st.tracePages ++ p.data
              downloadedCount := (st.counter + 1) * ps }
            (reqs + 1)
            (log ++ [{ st with
              counter := st.counter + 1
              tracePages := st.tracePages ++ p.data
              downloadedCount := (st.counter + 1) * ps }])
          exact ⟨h1, h2, by omega⟩
        · have hnext2 : p.next = false := by
            simpa using hnext
          simp only [fetchLoop, if_neg hcap, hnext2]
          refine ⟨?_, ?_, ?_⟩
          · intro _
            refine ⟨{ st with
                counter := st.counter + 1
                tracePages := st.tracePages ++ p.data
                downloadedCount := st.localRecordCount
                traces := st.tracePages ++ p.data }, ?_, ?_, ?_⟩
            · simp [List.getLast?_concat]
            · rfl
            · rfl
          · intro h
            simp at h
          · simp
/-- If a loop run consumes its whole response list while still awaiting a
further page, then extending the list with an erroring response (and
anything after it) fails the session and changes nothing else: requests,
published checkpoints and the machine state are exactly those of the
successful prefix. -/
theorem fetchLoop_error_preserves (ps ms : Nat) :
    ∀ (good : List (Option (Page α))) (st : FetchState α) (reqs : Nat)
      (log : List (FetchState α)) (rest : List (Option (Page α))),
    (fetchLoop ps ms good st reqs log).outcome = .awaiting →
    fetchLoop ps ms (good ++ none :: rest) st reqs log =
      ⟨(fetchLoop ps ms good st reqs log).requests,
       (fetchLoop ps ms good st reqs log).checkpoints,
       (fetchLoop ps ms good st reqs log).final, .failed⟩ := by
  intro good
  induction good with
  | nil =>
    intro st reqs log rest _
    simp [fetchLoop]
  | cons r good ih =>
    intro st reqs log rest hawait
    match r with
    | none =>
      rw [fetchLoop] at hawait
      cases hawait
    | some p =>
      by_cases hcap : (st.counter + 1) * ps > ms
      · rw [fetchLoop, if_pos hcap] at hawait
        cases hawait
      · by_cases hnext : p.next = true
        · have hstep : ∀ (tail : List (Option (Page α))),
              fetchLoop ps ms (some p :: tail) st reqs log =
              fetchLoop ps ms tail
                { st with
                  counter := st.counter + 1
                  tracePages := st.tracePages ++ p.data
                  downloadedCount := (st.counter + 1) * ps }
                (reqs + 1)
                (log ++ [{ st with
                  counter := st.counter + 1
                  tracePages := st.tracePages ++ p.data
                  downloadedCount := (st.counter + 1) * ps }]) := by
            intro tail
            conv_lhs => rw [fetchLoop]
            rw [if_neg hcap, hnext]
            simp
          rw [hstep] at hawait
          rw [List.cons_append, hstep, hstep]
          exact ih _ _ _ rest hawait
        · have hnext2 : p.next = false := by
            simpa using hnext
          rw [fetchLoop, if_neg hcap, hnext2] at hawait
          simp at hawait

/-- Length of the flattened data of a run of equally-sized pages. -/
theorem flatten_map_data_length (n : Nat) :
    ∀ (chunk : List (Page α)), (∀ p ∈ chunk, p.data.length = n) →
    ((chunk.map fun p => p.data).flatten).length = chunk.length * n := by
  intro chunk
  induction chunk with
  | nil => simp
  | cons p chunk ih =>
    intro h
    have hp := h p (by simp)
    simp only [List.map_cons, List.flatten_cons, List.length_append, List.length_cons,
      ih fun q hq => h q (by simp [hq]), hp]
    ring

/-- C1 (amended): with `totalCount = 20000`, `pageSize = 500`, cap `5000`,
the session merges ten pages and terminates CAPPED with
`downloadedCount = 5000` and an accumulation of exactly the first ten
pages (5000 records): the page whose response would exceed the cap is
never merged.  However an 11th page request IS issued — the cap is
checked only after the response of the 11th request arrives, whose data
is then discarded — so the total number of page requests is 11. -/
theorem fetch_cap_enforcement (st0 : FetchState α) (p1 p11 : Page α)
    (chunk : List (Page α)) (rest : List (Option (Page α)))
    (h1tot : p1.totalCount = 20000) (h1len : p1.data.length = 500) (h1next : p1.next = true)
    (hchlen : chunk.length = 9) (hchunk : ∀ p ∈ chunk, p.data.length = 500 ∧ p.next = true) :
    (fetchTraces 500 5000 st0 (some p1 :: (chunk.map some ++ some p11 :: rest))).outcome
      = .capped ∧
    (fetchTraces 500 5000 st0 (some p1 :: (chunk.map some ++ some p11 :: rest))).requests = 11 ∧
    (fetchTraces 500 5000 st0 (some p1 :: (chunk.map some ++ some p11 :: rest))).final.downloadedCount = 5000 ∧
    (fetchTraces 500 5000 st0 (some p1 :: (chunk.map some ++ some p11 :: rest))).final.traces = p1.data ++ (chunk.map fun p => p.data).flatten ∧
    (fetchTraces 500 5000 st0 (some p1 :: (chunk.map some ++ some p11 :: rest))).final.tracePages = (fetchTraces 500 5000 st0 (some p1 :: (chunk.map some ++ some p11 :: rest))).final.traces ∧
    (fetchTraces 500 5000 st0 (some p1 :: (chunk.map some ++ some p11 :: rest))).final.traces.length = 5000 := by
  have hstep : fetchTraces 500 5000 st0 (some p1 :: (chunk.map some ++ some p11 :: rest)) =
      fetchLoop 500 5000 (chunk.map some ++ some p11 :: rest)
        { counter := 1
          tracePages := p1.data
          localRecordCount := 20000
          traces := p1.data
          recordCount := 20000
          downloadedCount := 500 } 1
        [{ counter := 1
           tracePages := p1.data
           localRecordCount := 20000
           traces := p1.data
           recordCount := 20000
           downloadedCount := 500 }] := by
    rw [fetchTraces, h1next]
    norm_num [h1tot]
  rw [hstep]
  obtain ⟨h1, h2, h3, h4, h5, h6⟩ := fetchLoop_caps 500 5000 chunk
    { counter := 1
      tracePages := p1.data
      localRecordCount := 20000
      traces := p1.data
      recordCount := 20000
      downloadedCount := 500 } 1
    [{ counter := 1
       tracePages := p1.data
       localRecordCount := 20000
       traces := p1.data
       recordCount := 20000
       downloadedCount := 500 }]
    p11 rest hchunk
    (by simp [hchlen])
    (by simp [hchlen])
    (by simp [h1len])
    (by simp)
  refine ⟨h1, by rw [h2, hchlen], by rw [h3]; simp [hchlen], by rw [h5], by rw [h4, h5], ?_⟩
  rw [h5]
  simp only [List.length_append, h1len,
    flatten_map_data_length 500 chunk fun p hp => (hchunk p hp).1, hchlen]

/-- The cap-enforcement counterexample to the claim as stated: on the
concrete 20000-record server the session issues 11 page requests — an
11th page IS requested (its response is discarded), contradicting the
claim that no 11th page is requested. -/
theorem fetch_cap_eleventh_request :
    (fetchTraces 500 5000 initState capServer).requests = 11 ∧
    ¬ (fetchTraces 500 5000 initState capServer).requests ≤ 10 := by
  constructor
  · rfl
  · intro h
    rw [show (fetchTraces 500 5000 initState capServer).requests = 11 from rfl] at h
    omega

/-- Witness for `fetch_cap_enforcement` at the concrete cap scenario. -/
theorem fetch_cap_enforcement_witness :
    (fetchTraces 500 5000 initState (some fullPage :: ((List.replicate 9 fullPage).map some ++ some fullPage :: []))).outcome = .capped ∧
    (fetchTraces 500 5000 initState (some fullPage :: ((List.replicate 9 fullPage).map some ++ some fullPage :: []))).requests = 11 ∧
    (fetchTraces 500 5000 initState (some fullPage :: ((List.replicate 9 fullPage).map some ++ some fullPage :: []))).final.downloadedCount = 5000 ∧
    (fetchTraces 500 5000 initState (some fullPage :: ((List.replicate 9 fullPage).map some ++ some fullPage :: []))).final.traces = fullPage.data ++ ((List.replicate 9 fullPage).map fun p => p.data).flatten ∧
    (fetchTraces 500 5000 initState (some fullPage :: ((List.replicate 9 fullPage).map some ++ some fullPage :: []))).final.tracePages = (fetchTraces 500 5000 initState (some fullPage :: ((List.replicate 9 fullPage).map some ++ some fullPage :: []))).final.traces ∧
    (fetchTraces 500 5000 initState (some fullPage :: ((List.replicate 9 fullPage).map some ++ some fullPage :: []))).final.traces.length = 5000 :=
  fetch_cap_enforcement initState fullPage fullPage (List.replicate 9 fullPage) []
    rfl (List.length_replicate 500 0) rfl (List.length_replicate 9 fullPage)
    (by intro p hp
        rw [List.eq_of_mem_replicate hp]
        exact ⟨List.length_replicate 500 0, rfl⟩)

/-- C2: with `totalCount = 1200`, `pageSize = 500`, cap `5000` and pages of
500, 500 and 200 records (the last without a next cursor), exactly 3 page
requests are issued, the published `downloadedCount` sequence is
`[500, 1000, 1200]`, the final published traces hold all 1200 records in
page order, and the session terminates COMPLETED. -/
theorem fetch_normal_pagination (st0 : FetchState α) (p1 p2 p3 : Page α)
    (h1tot : p1.totalCount = 1200) (h1len : p1.data.length = 500) (h1next : p1.next = true)
    (h2len : p2.data.length = 500) (h2next : p2.next = true)
    (h3len : p3.data.length = 200) (h3next : p3.next = false) :
    (fetchTraces 500 5000 st0 [some p1, some p2, some p3]).requests = 3 ∧
    (fetchTraces 500 5000 st0 [some p1, some p2, some p3]).outcome = .completed ∧
    (fetchTraces 500 5000 st0 [some p1, some p2, some p3]).checkpoints.map (fun cp => cp.downloadedCount) = [500, 1000, 1200] ∧
    (fetchTraces 500 5000 st0 [some p1, some p2, some p3]).final.traces.length = 1200 ∧
    (fetchTraces 500 5000 st0 [some p1, some p2, some p3]).final.traces = p1.data ++ (p2.data ++ p3.data) ∧
    (fetchTraces 500 5000 st0 [some p1, some p2, some p3]).final.tracePages = [] := by
  have hstep : fetchTraces 500 5000 st0 [some p1, some p2, some p3] =
      fetchLoop 500 5000 [some p2, some p3]
        { counter := 1
          tracePages := p1.data
          localRecordCount := 1200
          traces := p1.data
          recordCount := 1200
          downloadedCount := 500 } 1
        [{ counter := 1
           tracePages := p1.data
           localRecordCount := 1200
           traces := p1.data
           recordCount := 1200
           downloadedCount := 500 }] := by
    rw [fetchTraces, h1next]
    norm_num [h1tot]
  rw [hstep]
  have hstep2 : fetchLoop 500 5000 [some p2, some p3]
      { counter := 1
        tracePages := p1.data
        localRecordCount := 1200
        traces := p1.data
        recordCount := 1200
        downloadedCount := 500 } 1
      [{ counter := 1
         tracePages := p1.data
         localRecordCount := 1200
         traces := p1.data
         recordCount := 1200
         downloadedCount := 500 }] =
      fetchLoop 500 5000 [some p3]
        { counter := 2
          tracePages := p1.data ++ p2.data
          localRecordCount := 1200
          traces := p1.data
          recordCount := 1200
          downloadedCount := 1000 } 2
        [{ counter := 1
           tracePages := p1.data
           localRecordCount := 1200
           traces := p1.data
           recordCount := 1200
           downloadedCount := 500 },
         { counter := 2
           tracePages := p1.data ++ p2.data
           localRecordCount := 1200
           traces := p1.data
           recordCount := 1200
           downloadedCount := 1000 }] := by
    conv_lhs => rw [fetchLoop]
    rw [h2next]
    norm_num
  rw [hstep2]
  have hstep3 : fetchLoop 500 5000 [some p3]
      { counter := 2
        tracePages := p1.data ++ p2.data
        localRecordCount := 1200
        traces := p1.data
        recordCount := 1200
        downloadedCount := 1000 } 2
      [{ counter := 1
         tracePages := p1.data
         localRecordCount := 1200
         traces := p1.data
         recordCount := 1200
         downloadedCount := 500 },
       { counter := 2
         tracePages := p1.data ++ p2.data
         localRecordCount := 1200
         traces := p1.data
         recordCount := 1200
         downloadedCount := 1000 }] =
      ⟨3,
       [{ counter := 1
          tracePages := p1.data
          localRecordCount := 1200
          traces := p1.data
          recordCount := 1200
          downloadedCount := 500 },
        { counter := 2
          tracePages := p1.data ++ p2.data
          localRecordCount := 1200
          traces := p1.data
          recordCount := 1200
          downloadedCount := 1000 },
        { counter := 3
          tracePages := p1.data ++ p2.data ++ p3.data
          localRecordCount := 1200
          traces := p1.data ++ p2.data ++ p3.data
          recordCount := 1200
          downloadedCount := 1200 }],
       { counter := 3
         tracePages := []
         localRecordCount := 1200
         traces := p1.data ++ p2.data ++ p3.data
         recordCount := 1200
         downloadedCount := 1200 },
       .completed⟩ := by
    conv_lhs => rw [fetchLoop]
    rw [h3next]
    norm_num
  rw [hstep3]
  refine ⟨rfl, rfl, rfl, ?_, ?_, rfl⟩
  · simp [h1len, h2len, h3len]
  · simp [List.append_assoc]

/-- Witness for `fetch_normal_pagination` at a concrete three-page server. -/
theorem fetch_normal_pagination_witness :
    (fetchTraces 500 5000 initState normalServer).requests = 3 ∧
    (fetchTraces 500 5000 initState normalServer).outcome = .completed ∧
    (fetchTraces 500 5000 initState normalServer).checkpoints.map (fun cp => cp.downloadedCount) = [500, 1000, 1200] ∧
    (fetchTraces 500 5000 initState normalServer).final.traces.length = 1200 ∧
    (fetchTraces 500 5000 initState normalServer).final.traces = (⟨List.replicate 500 0, 1200, true⟩ : Page Nat).data ++ ((⟨List.replicate 500 0, 1200, true⟩ : Page Nat).data ++ (⟨List.replicate 200 0, 1200, false⟩ : Page Nat).data) ∧
    (fetchTraces 500 5000 initState normalServer).final.tracePages = [] :=
  fetch_normal_pagination initState _ _ _
    rfl (List.length_replicate 500 0) rfl
    (List.length_replicate 500 0) rfl
    (List.length_replicate 200 0) rfl

/-- C3: in a session whose non-final pages are exactly one pageful each,
whose final page has no next cursor and at most one pageful, and whose
first page reports the true total, every published checkpoint satisfies
`accumulated.length = downloadedCount`; and when the cap is never hit one
snapshot is published per page and the session completes. -/
theorem fetch_checkpoint_invariant (ps ms : Nat) (st0 : FetchState α)
    (body : List (Page α)) (pfin : Page α)
    (hbody : ∀ p ∈ body, p.data.length = ps ∧ p.next = true)
    (hfin : pfin.next = false)
    (hfinlen : pfin.data.length ≤ ps)
    (htot : ∀ q ∈ (body ++ [pfin]).head?,
      q.totalCount = ((body ++ [pfin]).map fun p => p.data.length).sum) :
    (∀ cp ∈ (fetchTraces ps ms st0 ((body ++ [pfin]).map some)).checkpoints,
       cp.tracePages.length = cp.downloadedCount) ∧
    ((body.length + 1) * ps ≤ ms →
       (fetchTraces ps ms st0 ((body ++ [pfin]).map some)).checkpoints.length = body.length + 1 ∧
       (fetchTraces ps ms st0 ((body ++ [pfin]).map some)).outcome = .completed) := by
  cases body with
  | nil =>
    have hq := htot pfin (by simp)
    simp only [List.nil_append, List.map_cons, List.map_nil, List.sum_cons, List.sum_nil] at hq
    have hnotgt : ¬ pfin.totalCount > ps := by omega
    simp only [List.nil_append, List.map_cons, List.map_nil, fetchTraces, hfin,
      Bool.false_eq_true, if_false, if_neg hnotgt]
    constructor
    · intro cp hcp
      simp only [List.mem_singleton] at hcp
      subst hcp
      simp
      omega
    · intro _
      simp
  | cons b body =>
    have hb := hbody b (by simp)
    have hq := htot b (by simp)
    simp only [List.cons_append, List.map_cons, List.sum_cons, List.map_append,
      List.sum_append, List.map_nil, List.sum_nil] at hq
    rw [hb.1] at hq
    have hdlc : (if b.totalCount > ps then 1 * ps else b.totalCount) = 1 * ps := by
      split
      · rfl
      · omega
    have hstep : fetchTraces ps ms st0 (((b :: body) ++ [pfin]).map some) =
        fetchLoop ps ms ((body ++ [pfin]).map some)
          { counter := 1
            tracePages := b.data
            localRecordCount := b.totalCount
            traces := b.data
            recordCount := b.totalCount
            downloadedCount := 1 * ps } 1
          [{ counter := 1
             tracePages := b.data
             localRecordCount := b.totalCount
             traces := b.data
             recordCount := b.totalCount
             downloadedCount := 1 * ps }] := by
      simp only [List.cons_append, List.map_cons]
      conv_lhs => rw [fetchTraces]
      rw [hb.2, hdlc]
      simp
    rw [hstep]
    constructor
    · intro cp hcp
      have hres := fetchLoop_inv ps ms body pfin
        { counter := 1
          tracePages := b.data
          localRecordCount := b.totalCount
          traces := b.data
          recordCount := b.totalCount
          downloadedCount := 1 * ps } 1
        [{ counter := 1
           tracePages := b.data
           localRecordCount := b.totalCount
           traces := b.data
           recordCount := b.totalCount
           downloadedCount := 1 * ps }]
        (fun q hq2 => hbody q (by simp [hq2])) hfin
        (by simp [hb.1])
        (by simp)
        (by simp only []
            omega)
        cp hcp
      rcases hres with h | h
      · simp only [List.mem_singleton] at h
        subst h
        simp [hb.1]
      · exact h
    · intro hcap
      obtain ⟨h1, _, h3, _, _, _, _⟩ := fetchLoop_completes ps ms body pfin
        { counter := 1
          tracePages := b.data
          localRecordCount := b.totalCount
          traces := b.data
          recordCount := b.totalCount
          downloadedCount := 1 * ps } 1
        [{ counter := 1
           tracePages := b.data
           localRecordCount := b.totalCount
           traces := b.data
           recordCount := b.totalCount
           downloadedCount := 1 * ps }]
        (fun q hq2 => (hbody q (by simp [hq2])).2) hfin
        (by simp only [List.length_cons] at hcap
            rw [show (1 : Nat) + body.length + 1 = body.length + 1 + 1 from by omega]
            exact hcap)
      refine ⟨?_, h1⟩
      rw [h3]
      simp only [List.length_cons, List.length_nil]
      omega

/-- Witness for `fetch_checkpoint_invariant` at a concrete two-page
session with `pageSize = 2` and cap `100`. -/
theorem fetch_checkpoint_invariant_witness :
    (fetchTraces 2 100 initState invServer).checkpoints.length = 2 ∧
    (fetchTraces 2 100 initState invServer).outcome = .completed :=
  (fetch_checkpoint_invariant 2 100 initState [⟨[1, 2], 3, true⟩] ⟨[3], 3, false⟩
    (by decide) rfl (by decide) (by decide)).2 (by norm_num)

/-- C8 (amended): only a COMPLETED session that consumed at least one
cursor page clears its buffer when the terminal snapshot is published —
and the clearing changes nothing else of the published checkpoint.  A
single-page COMPLETED session and a CAPPED session leave the buffer
holding the published traces. -/
theorem fetch_terminal_buffer (ps ms : Nat) (st0 : FetchState α)
    (rs : List (Option (Page α))) :
    ((fetchTraces ps ms st0 rs).outcome = .completed → 2 ≤ (fetchTraces ps ms st0 rs).requests →
      ∃ cp, (fetchTraces ps ms st0 rs).checkpoints.getLast? = some cp ∧
        (fetchTraces ps ms st0 rs).final = { cp with tracePages := ([] : List α) }) ∧
    ((fetchTraces ps ms st0 rs).outcome = .completed → (fetchTraces ps ms st0 rs).requests = 1 →
      (fetchTraces ps ms st0 rs).checkpoints.getLast? = some (fetchTraces ps ms st0 rs).final) ∧
    ((fetchTraces ps ms st0 rs).outcome = .capped →
      (fetchTraces ps ms st0 rs).checkpoints.getLast? = some (fetchTraces ps ms st0 rs).final ∧
      (fetchTraces ps ms st0 rs).final.tracePages = (fetchTraces ps ms st0 rs).final.traces) := by
  match rs with
  | [] =>
    refine ⟨?_, ?_, ?_⟩ <;> intro h <;> simp [fetchTraces] at h
  | none :: rest =>
    refine ⟨?_, ?_, ?_⟩ <;> intro h <;> simp [fetchTraces] at h
  | some p :: rest =>
    by_cases hnext : p.next = true
    · have hstep : fetchTraces ps ms st0 (some p :: rest) =
          fetchLoop ps ms rest
            { counter := 1
              tracePages := p.data
              localRecordCount := p.totalCount
              traces := p.data
              recordCount := p.totalCount
              downloadedCount := if p.totalCount > ps then 1 * ps else p.totalCount } 1
            [{ counter := 1
               tracePages := p.data
               localRecordCount := p.totalCount
               traces := p.data
               recordCount := p.totalCount
               downloadedCount := if p.totalCount > ps then 1 * ps else p.totalCount }] := by
        conv_lhs => rw [fetchTraces]
        rw [hnext]
        simp
      rw [hstep]
      obtain ⟨h1, h2, h3⟩ := fetchLoop_terminal ps ms rest
        { counter := 1
          tracePages := p.data
          localRecordCount := p.totalCount
          traces := p.data
          recordCount := p.totalCount
          downloadedCount := if p.totalCount > ps then 1 * ps else p.totalCount } 1
        [{ counter := 1
           tracePages := p.data
           localRecordCount := p.totalCount
           traces := p.data
           recordCount := p.totalCount
           downloadedCount := if p.totalCount > ps then 1 * ps else p.totalCount }]
      refine ⟨?_, ?_, ?_⟩
      · intro hc _
        obtain ⟨cp, hcp1, hcp2, _⟩ := h1 hc
        exact ⟨cp, hcp1, hcp2⟩
      · intro _ hreq
        omega
      · exact h2
    · have hnext2 : p.next = false := by
        simpa using hnext
      simp only [fetchTraces, hnext2, Bool.false_eq_true, if_false]
      refine ⟨?_, ?_, ?_⟩
      · intro _ hreq
        simp at hreq
      · intro _ _
        simp
      · intro h
        cases h

/-- The C8 counterexample to the claim as stated: a single-page COMPLETED
session keeps its two records in the buffer after the terminal snapshot,
and a CAPPED session keeps the published traces in the buffer — the
buffer is not cleared in either terminal case. -/
theorem fetch_terminal_buffer_not_cleared :
    (fetchTraces 500 5000 initState [some ⟨[7, 8], 2, false⟩]).outcome = .completed ∧
    (fetchTraces 500 5000 initState [some ⟨[7, 8], 2, false⟩]).final.tracePages = [7, 8] ∧
    (fetchTraces 1 1 initState [some ⟨[5], 3, true⟩, some ⟨[6], 3, true⟩]).outcome = .capped ∧
    (fetchTraces 1 1 initState [some ⟨[5], 3, true⟩, some ⟨[6], 3, true⟩]).final.tracePages = [5] := by
  decide

/-- Witness for `fetch_terminal_buffer`: a concrete two-page COMPLETED
session ends with a cleared buffer. -/
theorem fetch_terminal_buffer_witness :
    (fetchTraces 1 100 initState [some ⟨[1], 2, true⟩, some ⟨[2], 2, false⟩]).final.tracePages
      = ([] : List Nat) := by
  obtain ⟨cp, _, hfin⟩ :=
    (fetch_terminal_buffer 1 100 initState [some ⟨[1], 2, true⟩, some ⟨[2], 2, false⟩]).1
      (by decide) (by decide)
  rw [hfin]

/-- C9: if, while a session is still awaiting a page, the next page
request fails (transport/decode error), the session ends FAILED and
nothing is merged or republished: the final machine state, the published
checkpoints and the request count are exactly those of the successful
prefix. -/
theorem fetch_error_preserves (ps ms : Nat) (st0 : FetchState α)
    (good rest : List (Option (Page α)))
    (hawait : (fetchTraces ps ms st0 good).outcome = .awaiting) :
    (fetchTraces ps ms st0 (good ++ none :: rest)).outcome = .failed ∧
    (fetchTraces ps ms st0 (good ++ none :: rest)).final = (fetchTraces ps ms st0 good).final ∧
    (fetchTraces ps ms st0 (good ++ none :: rest)).checkpoints = (fetchTraces ps ms st0 good).checkpoints ∧
    (fetchTraces ps ms st0 (good ++ none :: rest)).requests = (fetchTraces ps ms st0 good).requests := by
  match good with
  | [] =>
    simp [fetchTraces]
  | none :: g =>
    rw [fetchTraces] at hawait
    cases hawait
  | some p :: g =>
    by_cases hnext : p.next = true
    · have hstep : ∀ (tail : List (Option (Page α))),
          fetchTraces ps ms st0 (some p :: tail) =
          fetchLoop ps ms tail
            { counter := 1
              tracePages := p.data
              localRecordCount := p.totalCount
              traces := p.data
              recordCount := p.totalCount
              downloadedCount := if p.totalCount > ps then 1 * ps else p.totalCount } 1
            [{ counter := 1
               tracePages := p.data
               localRecordCount := p.totalCount
               traces := p.data
               recordCount := p.totalCount
               downloadedCount := if p.totalCount > ps then 1 * ps else p.totalCount }] := by
        intro tail
        conv_lhs => rw [fetchTraces]
        rw [hnext]
        simp
      rw [hstep] at hawait
      rw [List.cons_append, hstep, hstep,
        fetchLoop_error_preserves ps ms g _ _ _ rest hawait]
      exact ⟨rfl, rfl, rfl, rfl⟩
    · have hnext2 : p.next = false := by
        simpa using hnext
      rw [fetchTraces, hnext2] at hawait
      simp at hawait

/-- Witness for `fetch_error_preserves`: a session whose first page
carries a next cursor and whose second request errors ends FAILED with
the first page's published state intact. -/
theorem fetch_error_preserves_witness :
    (fetchTraces 500 5000 initState ([some ⟨([] : List Nat), 0, true⟩] ++ none :: [])).outcome = .failed ∧
    (fetchTraces 500 5000 initState ([some ⟨([] : List Nat), 0, true⟩] ++ none :: [])).final = (fetchTraces 500 5000 initState [some ⟨([] : List Nat), 0, true⟩]).final ∧
    (fetchTraces 500 5000 initState ([some ⟨([] : List Nat), 0, true⟩] ++ none :: [])).checkpoints = (fetchTraces 500 5000 initState [some ⟨([] : List Nat), 0, true⟩]).checkpoints ∧
    (fetchTraces 500 5000 initState ([some ⟨([] : List Nat), 0, true⟩] ++ none :: [])).requests = (fetchTraces 500 5000 initState [some ⟨([] : List Nat), 0, true⟩]).requests :=
  fetch_error_preserves 500 5000 initState [some ⟨[], 0, true⟩] [] (by decide)

/-! ## Helper lemmas: the filter pipeline -/

theorem length_filter_pos_eq_any {γ : Type} (l : List γ) (p : γ → Bool) :
    decide ((l.filter p).length > 0) = l.any p := by
  induction l with
  | nil => rfl
  | cons a l ih =>
    by_cases h : p a
    · simp [List.filter_cons, h]
    · simp only [List.filter_cons, h, Bool.false_eq_true, if_false, List.any_cons]
      rw [ih]
      simp [h]

theorem guardedFilter_eq {γ : Type} (sel : List γ) (m : Report → γ → Bool) (ts : List Report) :
    (if sel.length > 0 then
        ts.filter fun t => decide ((sel.filter fun c => m t c).length > 0)
      else ts)
      = ts.filter fun t => sel.isEmpty || sel.any fun c => m t c := by
  cases sel with
  | nil => simp
  | cons a l =>
    rw [if_pos (by simp)]
    refine List.filter_congr fun t _ => ?_
    rw [length_filter_pos_eq_any]
    simp

theorem filterByCircuits_eq (sel : List Circuit) (ts : List Report) :
    filterByCircuits sel ts
      = ts.filter fun t => sel.isEmpty || sel.any fun c => circuitMatch t c :=
  guardedFilter_eq sel (fun t c => circuitMatch t c) ts

theorem filterByPorts_eq (sel : List Port) (ts : List Report) :
    filterByPorts sel ts
      = ts.filter fun t => sel.isEmpty || sel.any fun p => portMatch t p :=
  guardedFilter_eq sel (fun t p => portMatch t p) ts

theorem filterByCallsigns_eq (sel : List (String × String)) (ts : List Report) :
    filterByCallsigns sel ts
      = ts.filter fun t => sel.isEmpty || sel.any fun c => pairMatch t c :=
  guardedFilter_eq sel (fun t c => pairMatch t c) ts

/-- The facet-intersection stage is the filter by the conjunction of the
three per-dimension predicates: OR within a dimension, AND across
dimensions, an empty selection imposing no constraint, and the surviving
records keeping their original relative order. -/
theorem facetStage_eq_filter (cr : FilterCriteria) (ts : List Report) :
    facetStage cr ts = ts.filter fun t => facetMatch cr t := by
  unfold facetStage facetMatch
  rw [filterByCircuits_eq, filterByPorts_eq, filterByCallsigns_eq,
    List.filter_filter, List.filter_filter]
  refine List.filter_congr fun t _ => ?_
  cases cr.selectedNetRomCircuits.isEmpty || cr.selectedNetRomCircuits.any fun c => circuitMatch t c <;>
    cases cr.selectedPorts.isEmpty || cr.selectedPorts.any fun p => portMatch t p <;>
    cases cr.selectedL2Callsigns.isEmpty || cr.selectedL2Callsigns.any fun c => pairMatch t c <;>
    rfl

/-- The whole `filterTraces` pipeline is the filter by the conjunction of
the facet-intersection predicate and the suppression predicate. -/
theorem filterTraces_eq_filter (cr : FilterCriteria) (ts : List Report) :
    filterTraces cr ts = ts.filter fun t => facetMatch cr t && suppressPred cr t := by
  unfold filterTraces
  rw [facetStage_eq_filter, List.filter_filter]
  refine List.filter_congr fun t _ => ?_
  cases facetMatch cr t <;> cases suppressPred cr t <;> rfl

theorem filter_self_idem {γ : Type} (p : γ → Bool) (l : List γ) :
    (l.filter p).filter p = l.filter p := by
  rw [List.filter_filter]
  refine List.filter_congr fun a _ => ?_
  cases p a <;> rfl

/-- C4 (amended): the facet-intersection stage keeps exactly the records
satisfying, for each dimension with a non-empty selection, at least one
selected value (OR within a dimension, AND across dimensions, empty
selections unconstrained), in original relative order — with the code's
matching rules: a circuit match requires the record's `toCct` to be
truthy (present and nonzero) in addition to being equal to the selected
circuit's `toCct`; port and callsign-pair matching are as the claim
states (exact `(port, reportFrom)` equality, symmetric pair equality). -/
theorem facetStage_keeps_matching (cr : FilterCriteria) (ts : List Report) :
    facetStage cr ts = ts.filter fun t => facetMatch cr t :=
  facetStage_eq_filter cr ts

/-- The C4 counterexample to the claim as stated: a NET/ROM record with
`toCct = 0` (present) and the selection of the circuit with `toCct = 0`
match under the claim's rule (equal `toCct`), yet the code's
facet-intersection stage drops the record because `t.report.toCct` is
falsy in JS. -/
theorem facetStage_truthiness_counterexample :
    facetStage cctZeroCriteria [cctZeroReport] = [] ∧
    claimFacetMatch cctZeroCriteria cctZeroReport = true ∧
    List.filter (fun t => claimFacetMatch cctZeroCriteria t) [cctZeroReport] = [cctZeroReport] := by
  decide

/-- C5: the filter pipeline is idempotent — re-applying `filterTraces` to
its own output with the same criteria returns that output unchanged. -/
theorem filterTraces_idempotent (cr : FilterCriteria) (ts : List Report) :
    filterTraces cr (filterTraces cr ts) = filterTraces cr ts := by
  rw [filterTraces_eq_filter cr ts, filterTraces_eq_filter cr]
  exact filter_self_idem _ _

/-! ## Helper lemmas: facet extraction -/

theorem cctLe_trans (a b c : Circuit) (hab : decide (a.toCct ≤ b.toCct) = true)
    (hbc : decide (b.toCct ≤ c.toCct) = true) : decide (a.toCct ≤ c.toCct) = true := by
  simp only [decide_eq_true_eq] at *
  omega

theorem cctLe_total (a b : Circuit) :
    (decide (a.toCct ≤ b.toCct) || decide (b.toCct ≤ a.toCct)) = true := by
  simp only [Bool.or_eq_true, decide_eq_true_eq]
  omega

theorem circuitsStep_skip {t : Report} (h : ¬ isNetRomCct t = true) (acc : List Circuit) :
    circuitsStep acc t = acc := by
  simp [circuitsStep, h]

theorem circuitsStep_mem {t : Report} (h : isNetRomCct t = true) (acc : List Circuit)
    (c : Circuit) : c ∈ circuitsStep acc t ↔ c ∈ acc ∨ c = circuitOf t := by
  unfold circuitsStep
  rw [if_pos h, List.mem_mergeSort]
  by_cases hm : (acc.filter fun x => decide (jsonCircuitChars x = jsonCircuitChars (circuitOf t))).length = 0
  · rw [if_pos hm]
    simp [List.mem_append]
  · rw [if_neg hm]
    have hmem : circuitOf t ∈ acc := by
      by_contra hnot
      exact hm ((filter_stringify_len_zero_iff (fun x y hxy => jsonCircuitChars_inj hxy) acc
        (circuitOf t)).mpr hnot)
    constructor
    · exact Or.inl
    · rintro (h2 | h2)
      · exact h2
      · rw [h2]
        exact hmem

theorem circuitsStep_nodup {t : Report} (acc : List Circuit) (h : acc.Nodup) :
    (circuitsStep acc t).Nodup := by
  by_cases hn : isNetRomCct t = true
  · unfold circuitsStep
    rw [if_pos hn]
    apply (List.mergeSort_perm _ _).nodup_iff.mpr
    by_cases hm : (acc.filter fun x => decide (jsonCircuitChars x = jsonCircuitChars (circuitOf t))).length = 0
    · rw [if_pos hm]
      have hnot := (filter_stringify_len_zero_iff (fun x y hxy => jsonCircuitChars_inj hxy) acc
        (circuitOf t)).mp hm
      rw [List.nodup_append]
      refine ⟨h, List.nodup_singleton _, ?_⟩
      intro a ha hb
      rw [List.mem_singleton] at hb
      rw [hb] at ha
      exact hnot ha
    · rw [if_neg hm]
      exact h
  · rw [circuitsStep_skip hn]
    exact h

theorem circuitsStep_sorted {t : Report} (acc : List Circuit)
    (h : acc.Pairwise fun a b => a.toCct ≤ b.toCct) :
    (circuitsStep acc t).Pairwise fun a b => a.toCct ≤ b.toCct := by
  by_cases hn : isNetRomCct t = true
  · unfold circuitsStep
    rw [if_pos hn]
    have hs := List.sorted_mergeSort cctLe_trans cctLe_total
      (if (acc.filter fun x => decide (jsonCircuitChars x = jsonCircuitChars (circuitOf t))).length = 0 then
        acc ++ [circuitOf t]
      else acc)
    exact hs.imp fun hab => by simpa using hab
  · rw [circuitsStep_skip hn]
    exact h

theorem circuits_foldl_spec (ts : List Report) : ∀ acc : List Circuit, acc.Nodup →
    ((ts.foldl circuitsStep acc).Nodup ∧
     ∀ c, c ∈ ts.foldl circuitsStep acc ↔ c ∈ acc ∨ ∃ t ∈ ts, isNetRomCct t = true ∧ c = circuitOf t) := by
  induction ts with
  | nil =>
    intro acc h
    refine ⟨h, fun c => ?_⟩
    simp
  | cons t ts ih =>
    intro acc h
    rw [List.foldl_cons]
    obtain ⟨h1, h2⟩ := ih (circuitsStep acc t) (circuitsStep_nodup acc h)
    refine ⟨h1, fun c => ?_⟩
    rw [h2 c]
    by_cases hn : isNetRomCct t = true
    · rw [circuitsStep_mem hn]
      simp only [List.mem_cons]
      constructor
      · rintro ((hc | hc) | ⟨t2, ht2, hc⟩)
        · exact Or.inl hc
        · exact Or.inr ⟨t, Or.inl rfl, hn, hc⟩
        · exact Or.inr ⟨t2, Or.inr ht2, hc⟩
      · rintro (hc | ⟨t2, (ht2 | ht2), hc⟩)
        · exact Or.inl (Or.inl hc)
        · subst ht2
          exact Or.inl (Or.inr hc.2)
        · exact Or.inr ⟨t2, ht2, hc⟩
    · rw [circuitsStep_skip hn]
      simp only [List.mem_cons]
      constructor
      · rintro (hc | ⟨t2, ht2, hc⟩)
        · exact Or.inl hc
        · exact Or.inr ⟨t2, Or.inr ht2, hc⟩
      · rintro (hc | ⟨t2, (ht2 | ht2), hc⟩)
        · exact Or.inl hc
        · subst ht2
          exact absurd hc.1 hn
        · exact Or.inr ⟨t2, ht2, hc⟩

theorem circuits_foldl_sorted (ts : List Report) : ∀ acc : List Circuit,
    (acc.Pairwise fun a b => a.toCct ≤ b.toCct) →
    (ts.foldl circuitsStep acc).Pairwise fun a b => a.toCct ≤ b.toCct := by
  induction ts with
  | nil =>
    intro acc h
    exact h
  | cons t ts ih =>
    intro acc h
    rw [List.foldl_cons]
    exact ih _ (circuitsStep_sorted acc h)

/-- C6 (amended): `extractCircuits` returns the facet `{toCct, l3src,
l3dst}` of exactly the records with `ptcl == "NET/ROM"` and a truthy
(present and nonzero) `toCct`; the result has no two structurally-equal
entries and is sorted ascending by `toCct` under numeric comparison. -/
theorem extractCircuits_spec (ts : List Report) :
    (∀ c, c ∈ extractCircuits ts ↔ ∃ t ∈ ts, isNetRomCct t = true ∧ c = circuitOf t) ∧
    (extractCircuits ts).Nodup ∧
    ((extractCircuits ts).Pairwise fun a b => a.toCct ≤ b.toCct) := by
  obtain ⟨h1, h2⟩ := circuits_foldl_spec ts [] (List.nodup_nil)
  refine ⟨fun c => ?_, h1, circuits_foldl_sorted ts [] (List.Pairwise.nil)⟩
  rw [extractCircuits, h2 c]
  simp

/-- The C6 counterexample to the claim as stated: a NET/ROM record whose
`toCct` is present but `0` yields no circuit facet, because the code
tests JS truthiness of `toCct` (0 is falsy), not presence. -/
theorem extractCircuits_zero_counterexample :
    extractCircuits [cctZeroReport] = [] ∧
    cctZeroReport.ptcl = some "NET/ROM" ∧
    cctZeroReport.toCct.isSome = true := by
  decide

theorem pairsStepSorted_eq (acc : List (String × String)) (t : Report) :
    pairsStepSorted acc t = if sortedPairOf t ∈ acc then acc else acc ++ [sortedPairOf t] := by
  unfold pairsStepSorted
  rw [if_congr (filter_stringify_len_zero_iff (fun x y h => jsonPairChars_inj h) acc
    (sortedPairOf t)) rfl rfl, ite_not]

theorem pairsStepAsSeen_eq (acc : List (String × String)) (t : Report) :
    pairsStepAsSeen acc t
      = if (t.srce, t.dest) ∈ acc then acc else acc ++ [(t.srce, t.dest)] := by
  unfold pairsStepAsSeen
  rw [if_congr (filter_stringify_len_zero_iff (fun x y h => jsonPairChars_inj h) acc
    (t.srce, t.dest)) rfl rfl, ite_not]

theorem foldl_dedupFirst_eq (g : Report → String × String)
    (step : List (String × String) → Report → List (String × String))
    (hstep : ∀ acc t, step acc t = if g t ∈ acc then acc else acc ++ [g t])
    (ts : List Report) : ts.foldl step [] = dedupFirst (ts.map g) := by
  unfold dedupFirst
  rw [List.foldl_map]
  have hfun : step = fun acc t => if g t ∈ acc then acc else acc ++ [g t] :=
    funext fun acc => funext fun t => hstep acc t
  rw [hfun]

/-- C7 (amended): the current `App.jsx` canonicalizes each callsign pair
(`[srce, dest].sort()`) before structural first-seen deduplication, so
`(A,B)` and `(B,A)` collapse to a single facet; the earlier variant of
`findSeenCallsignsAndNetRom` deduplicated the pair exactly as
encountered, keeping `(A,B)` and `(B,A)` distinct.  Both preserve
first-seen insertion order. -/
theorem extractCallsignPairs_characterization (ts : List Report) :
    extractCallsignPairsSorted ts = dedupFirst (ts.map fun t => sortedPairOf t) ∧
    extractCallsignPairsAsSeen ts = dedupFirst (ts.map fun t => (t.srce, t.dest)) := by
  constructor
  · exact foldl_dedupFirst_eq (fun t => sortedPairOf t) pairsStepSorted pairsStepSorted_eq ts
  · exact foldl_dedupFirst_eq (fun t => (t.srce, t.dest)) pairsStepAsSeen pairsStepAsSeen_eq ts

/-- The C7 counterexample to the claim as stated: for a record with
`srce = "B"`, `dest = "A"` the current code emits the canonicalized facet
`("A", "B")`, not the encountered pair `("B", "A")`, and the swapped
observations `(B,A)` and `(A,B)` collapse into one facet (the earlier
variant kept both). -/
theorem extractCallsignPairs_canonicalize_counterexample :
    extractCallsignPairsSorted [baReport] = [("A", "B")] ∧
    (baReport.srce, baReport.dest) = ("B", "A") ∧
    extractCallsignPairsSorted [baReport, abReport] = [("A", "B")] ∧
    extractCallsignPairsAsSeen [baReport, abReport] = [("B", "A"), ("A", "B")] := by
  decide

/-- C10: for the circuit and port facet collections, deduplication by
comparing JSON stringifications coincides with field-wise structural
equality — the fixed key insertion order (`{toCct, l3src, l3dst}` and
`{port, reportFrom}`) makes the encodings injective, so the key-order
string-mismatch hazard cannot occur and the stringify-based extraction
equals the structural-equality extraction. -/
theorem stringified_dedup_refines_structural (ts : List Report) :
    (∀ a b : Circuit, jsonCircuitChars a = jsonCircuitChars b ↔ a = b) ∧
    (∀ a b : Port, jsonPortChars a = jsonPortChars b ↔ a = b) ∧
    extractCircuits ts = extractCircuitsStructural ts ∧
    extractPorts ts = extractPortsStructural ts := by
  refine ⟨fun a b => ⟨fun h => jsonCircuitChars_inj h, fun h => by rw [h]⟩,
    fun a b => ⟨fun h => jsonPortChars_inj h, fun h => by rw [h]⟩, ?_, ?_⟩
  · unfold extractCircuits extractCircuitsStructural
    have hfun : circuitsStep = circuitsStepStructural := by
      funext acc t
      unfold circuitsStep circuitsStepStructural
      by_cases hn : isNetRomCct t = true
      · rw [if_pos hn, if_pos hn]
        simp only []
        congr 1
        exact if_congr (filter_stringify_len_zero_iff (fun x y h => jsonCircuitChars_inj h) acc
          (circuitOf t)) rfl rfl
      · rw [if_neg hn, if_neg hn]
    rw [hfun]
  · unfold extractPorts extractPortsStructural
    have hfun : portsStep = portsStepStructural := by
      funext acc t
      unfold portsStep portsStepStructural
      simp only []
      exact if_congr (filter_stringify_len_zero_iff (fun x y h => jsonPortChars_inj h) acc
        (portOf t)) rfl rfl
    rw [hfun]

end PacMon
